import Mathlib

/-!
Verification of the concurrent bulk file-hashing engine in `src/md5hash.cpp`.

The development shallowly embeds the program:

* Paths are `String`s; byte contents are `List Nat` (each element < 256).
* The MD5 primitive (OpenSSL `MD5_Init/Update/Final`) is an external
  collaborator; it is a parameter `md5fn : List Nat → List Nat` mapping the
  concatenation of all bytes fed to `MD5_Update` to the 16-byte digest.
* The `std::ifstream` used by `md5_file_hex` is modelled by `FileModel`:
  opening can fail, and the read loop delivers either the whole content
  (normal EOF) or a strict prefix of it (a hard read error mid-stream makes
  `while (in)` exit early).  The C++ loop cannot distinguish the two cases:
  it exits `while (in)` the first time the stream is no longer good,
  having fed the delivered bytes to the hash; the model records the error
  point in `FileModel.readErrAt` so that specification claims about
  mid-stream failures can be stated and settled.
* Filesystem discovery (`collect_files_from_arg`) is modelled by a
  function `String → FsEntry`; a directory is the flattened list of entries
  produced by the `recursive_directory_iterator`, each entry carrying the
  two observations the code makes about it: whether `it.increment(ec)` set
  `ec`, and the result of `is_regular_file`.
* The concurrent part (task queue, worker pool, collector) is a small-step
  relation `MStep` on `MState`.  In the source every mutation of the shared
  queue/result-table happens under the single mutex `mtx`, so a state
  transition is one critical section: `dequeue` is the worker taking
  `q.front()`; `publish` is `results[t.index] = r` (the hashing between the
  two critical sections is the deterministic `runTask`, so it is evaluated
  at publish time); `emit` is the collector printing slot `next` after its
  `cv.wait` predicate `results[next].has_value()` holds.  The pool size
  only bounds how many tasks can be in flight simultaneously; the relation
  allows any number, so every schedule of every pool size is a trace of
  this relation.  The `done` flag and the final `join` only govern worker
  shutdown after emission and touch no observable state, so they are not
  part of the model.
* `emitted` records the task indices in the order the collector printed
  them (a history variable; the source prints to stdout in that order).
-/

namespace Md5

/-- One hex digit as rendered by `std::hex << std::uppercase`:
digits `0`-`9` then `A`-`F` (48 is `'0'`, 55 + 10 is `'A'`). -/
def hexDigit (n : Nat) : Char :=
  if n < 10 then Char.ofNat (48 + n) else Char.ofNat (55 + n)

/-- Rendering of one digest byte by `oss << std::setw(2) << b` under
`std::setfill('0') << std::hex << std::uppercase`: the hex digits of `b`,
left-padded with `'0'` to width 2.  Digest bytes are `unsigned char`, so
the embedding is stated for `b < 256` (one or two hex digits). -/
def hexByteChars (b : Nat) : List Char :=
  let digits := if b < 16 then [hexDigit b] else [hexDigit (b / 16), hexDigit (b % 16)]
  List.replicate (2 - digits.length) '0' ++ digits

/-- The hex string built by the rendering loop of `md5_file_hex`
(lines 48-53 of `md5hash.cpp`): the concatenation of the two-digit
renderings of the digest bytes. -/
def md5HexRender (digest : List Nat) : String :=
  String.mk (List.map hexByteChars digest).flatten

/-- Model of the `std::ifstream` behaviour seen by `md5_file_hex`:
`openOk` is whether the constructor produced a good stream; `content` is
the byte content of the file on disk; `readErrAt = some k` means a hard
read error (badbit) occurs after `k` bytes were delivered by `read`,
`none` means the stream runs to a normal EOF. -/
structure FileModel where
  openOk : Bool
  content : List Nat
  readErrAt : Option Nat
  deriving DecidableEq

/-- The bytes actually delivered by the read loop before `while (in)`
exits: the whole content at EOF, or the prefix before a hard error. -/
def deliveredBytes (fm : FileModel) : List Nat :=
  match fm.readErrAt with
  | none => fm.content
  | some k => fm.content.take k

/-- Embedding of `md5_file_hex` (lines 29-54): throw (`Except.error`)
exactly when the open fails; otherwise feed every `gcount`-delivered byte
to the hash and render the final digest.  The loop has no error check
after the open, so the delivered bytes are hashed whether the loop ended
at EOF or at a mid-stream read error. -/
def md5_file_hex (fm : FileModel) (md5fn : List Nat → List Nat) : Except String String :=
  if fm.openOk then Except.ok (md5HexRender (md5fn (deliveredBytes fm)))
  else Except.error "cannot open file"

/-- The `Result` struct of `md5hash.cpp` (lines 23-27). -/
structure Result where
  ok : Bool
  md5hex : String
  err : String
  deriving DecidableEq

/-- The external world a run is performed against: the stream model of
each path and the MD5 primitive. -/
structure Env where
  fileOf : String → FileModel
  md5fn : List Nat → List Nat

/-- The worker body around the hash call (lines 156-163): `try` the hash,
on success `ok = true` with the hex, on exception `ok = false` with the
message. -/
def runTask (env : Env) (p : String) : Result :=
  match md5_file_hex (env.fileOf p) env.md5fn with
  | Except.ok h => { ok := true, md5hex := h, err := "" }
  | Except.error e => { ok := false, md5hex := "", err := e }

/-- Embedding of `path.filename().string()`: the component after the last
slash of the path. -/
def filenameOf (p : String) : String :=
  String.mk (p.data.foldl (fun acc c => if c = '/' then [] else acc ++ [c]) [])

/-- One stdout line of the collector (lines 190-194): the file name, a
tab, then the digest or the error marker. -/
def renderLine (p : String) (r : Result) : String :=
  if r.ok then filenameOf p ++ "\t" ++ r.md5hex
  else filenameOf p ++ "\tERROR: " ++ r.err

/-- One entry met by the `recursive_directory_iterator` (lines 70-76):
`incErr` is whether `it.increment(ec)` set `ec` at this entry, `isReg`
the result of `is_regular_file(it->path(), ec2)` (`false` also when that
call itself errored, since an `ec2` error skips the entry the same way). -/
structure DirEntryRec where
  path : String
  incErr : Bool
  isReg : Bool

/-- What the filesystem reports for one path argument, in the order
`collect_files_from_arg` queries it: not existing, a regular file, a
directory (with the flattened traversal of its entries), or some other
kind of entry. -/
inductive FsEntry where
  | missing : FsEntry
  | regular : FsEntry
  | directory : List DirEntryRec → FsEntry
  | other : FsEntry

/-- Embedding of `collect_files_from_arg` (lines 56-82).  Returns the
files appended to `out` and the warnings printed to `std::cerr`.  Note
the directory branch: entries whose increment errored are skipped by
`if (ec) { ec.clear(); continue; }` and non-regular entries by the
`is_regular_file` test — neither prints anything. -/
def collect_files_from_arg (fsys : String → FsEntry) (arg : String) :
    List String × List String :=
  match fsys arg with
  | FsEntry.missing => ([], ["Warning: path not found: " ++ arg])
  | FsEntry.regular => ([arg], [])
  | FsEntry.directory entries =>
      ((entries.filter (fun e => !e.incErr && e.isReg)).map DirEntryRec.path, [])
  | FsEntry.other => ([], ["Warning: skipping non-regular path: " ++ arg])

/-- The per-input collection loop of `main` (line 124), accumulating
files and warnings left to right. -/
def collectAll (fsys : String → FsEntry) : List String → List String × List String
  | [] => ([], [])
  | p :: rest =>
      let here := collect_files_from_arg fsys p
      let there := collectAll fsys rest
      (here.1 ++ there.1, here.2 ++ there.2)

/-- Accumulation of a decimal digit run, as `strtoul` does. -/
def natFromDigits (cs : List Char) : Nat :=
  cs.foldl (fun acc c => acc * 10 + (c.toNat - 48)) 0

/-- `ULONG_MAX` on the 64-bit targets the code is built for. -/
def ulongMax : Nat := 2 ^ 64 - 1

/-- Embedding of `std::stoul(s)` (base 10): skip leading whitespace, an
optional sign, then a digit run.  No digits at all throws
`invalid_argument`; a magnitude above `ULONG_MAX` throws `out_of_range`;
a leading `-` wraps the value modulo 2^64 (`strtoul` semantics); any
trailing non-digit characters are simply ignored. -/
def stoul (s : String) : Except String Nat :=
  let cs := s.data.dropWhile Char.isWhitespace
  let signed : Bool × List Char :=
    match cs with
    | '+' :: rest => (false, rest)
    | '-' :: rest => (true, rest)
    | _ => (false, cs)
  let digits := signed.2.takeWhile Char.isDigit
  if digits.isEmpty then Except.error "invalid_argument"
  else
    let v := natFromDigits digits
    if ulongMax < v then Except.error "out_of_range"
    else Except.ok (if signed.1 then (2 ^ 64 - v) % 2 ^ 64 else v)

/-- The argument loop of `main` (lines 95-115): `threads` starts at 8;
`--threads` consumes the following token, `std::max<std::size_t>(8, n)`
clamps the parsed value; a missing or unparsable value is a fatal error;
every other token is an input path. -/
def parseLoop : Nat → List String → List String → Except String (Nat × List String)
  | t, acc, [] => Except.ok (t, acc)
  | t, acc, a :: rest =>
    if a = "--threads" then
      match rest with
      | [] => Except.error "Error: --threads requires a number"
      | v :: restTl =>
        match stoul v with
        | Except.ok n => parseLoop (max 8 n) acc restTl
        | Except.error _ => Except.error "Error: invalid --threads value"
    else parseLoop t (acc ++ [a]) rest

/-- Argument parsing of `main`: returns the effective thread count and
the input paths, or the fatal configuration error. -/
def parseArgs (args : List String) : Except String (Nat × List String) :=
  parseLoop 8 [] args

/-- The comparison `a.string() < b.string()` used by the `std::sort` call
(lines 132-133), as a non-strict order on the byte sequences (any
comparison sort with this key yields the same list of strings). -/
def pathLe (a b : String) : Prop := a.data ≤ b.data

instance : DecidableRel pathLe := fun a b => (inferInstance : Decidable (a.data ≤ b.data))

instance : IsTotal String pathLe := ⟨fun a b => le_total a.data b.data⟩

instance : IsTrans String pathLe := ⟨fun _ _ _ h h2 => le_trans h h2⟩

/-- The deterministic sort of the discovered files (lines 131-133). -/
def sortPaths (files : List String) : List String := List.insertionSort pathLe files

/-- The `Task` struct of `md5hash.cpp` (lines 18-21). -/
structure Task where
  index : Nat
  path : String
  deriving DecidableEq

/-- The queue fill loop (line 138): one task per file, indexed by sorted
position. -/
def mkTasks (files : List String) : List Task :=
  (List.range files.length).map (fun i => { index := i, path := files.getD i "" })

/-- The shared state of the pipeline: the task queue, the tasks some
worker has dequeued but not yet published, the result table, the
collector cursor `next`, the stdout lines, and the emission history. -/
structure MState where
  queue : List Task
  inflight : List Task
  results : Nat → Option Result
  next : Nat
  output : List String
  emitted : List Nat

/-- The state right after lines 136-143: full queue, empty table,
cursor at 0, nothing printed. -/
def initState (files : List String) : MState :=
  { queue := mkTasks files
    inflight := []
    results := fun _ => none
    next := 0
    output := []
    emitted := [] }

/-- One critical section of the pipeline.  `dequeue`: a worker passes the
`cv.wait` predicate `!q.empty() || done` with a non-empty queue and pops
the front task (lines 148-154).  `publish`: a worker stores its result at
the task index and notifies (lines 165-169).  `emit`: the collector,
whose wait predicate is only `results[next].has_value()`, prints slot
`next` and advances (lines 182-196). -/
inductive MStep (env : Env) (files : List String) : MState → MState → Prop
  | dequeue (s : MState) (t : Task) (rest : List Task) :
      s.queue = t :: rest →
      MStep env files s { s with queue := rest, inflight := t :: s.inflight }
  | publish (s : MState) (t : Task) :
      t ∈ s.inflight →
      MStep env files s
        { s with
          inflight := s.inflight.erase t
          results := Function.update s.results t.index (some (runTask env t.path)) }
  | emit (s : MState) (r : Result) :
      s.next < files.length →
      s.results s.next = some r →
      MStep env files s
        { s with
          output := s.output ++ [renderLine (files.getD s.next "") r]
          emitted := s.emitted ++ [s.next]
          next := s.next + 1 }

/-- Finitely many pipeline steps from `start` (any interleaving of any
number of workers with the collector). -/
inductive Reaches (env : Env) (files : List String) (start : MState) : MState → Prop
  | refl : Reaches env files start start
  | tail (s2 s3 : MState) :
      Reaches env files start s2 → MStep env files s2 s3 → Reaches env files start s3

/-- Task indices still in the queue. -/
def queueIdx (s : MState) : List Nat := s.queue.map Task.index

/-- Task indices currently being processed by some worker. -/
def inflightIdx (s : MState) : List Nat := s.inflight.map Task.index

/-- 1 when result slot `i` has been written, else 0. -/
def fillCount (s : MState) (i : Nat) : Nat := if (s.results i).isSome then 1 else 0

/-- Number of occurrences of `i` in `l`. -/
def countOcc (i : Nat) (l : List Nat) : Nat := (l.filter (fun j => j = i)).length

/-- The complete output of a run: one line per file, in file-list order,
each line determined only by the path and the hash outcome. -/
def referenceOutput (env : Env) (files : List String) : List String :=
  files.map (fun p => renderLine p (runTask env p))

/-- The pipeline invariant.  `task_mem`: every queued or in-flight task
is the task built for its index.  `partition`: every index below
`files.length` is in exactly one place — queue, in flight, or written to
the table.  `slot_content`: a written slot holds exactly the worker
result for its file.  `filled_below_next`: every slot below the cursor is
written.  `output_eq` and `emitted_eq`: the collector has printed exactly
the first `next` reference lines, in index order. -/
structure Inv (env : Env) (files : List String) (s : MState) : Prop where
  task_mem : ∀ t ∈ s.queue ++ s.inflight,
    t.index < files.length ∧ t.path = files.getD t.index ""
  partition : ∀ i < files.length,
    countOcc i (queueIdx s) + countOcc i (inflightIdx s) + fillCount s i = 1
  slot_content : ∀ i r, s.results i = some r →
    i < files.length ∧ r = runTask env (files.getD i "")
  next_le : s.next ≤ files.length
  filled_below_next : ∀ i < s.next, (s.results i).isSome
  output_eq : s.output = (referenceOutput env files).take s.next
  emitted_eq : s.emitted = List.range s.next

/-- The result record of one `main` invocation: exit code, stdout lines,
stderr lines. -/
structure RunResult where
  exitCode : Nat
  stdout : List String
  stderr : List String
  deriving DecidableEq

/-- Embedding of the sequential skeleton of `main` (lines 84-207): usage
exit, argument parsing, discovery, the empty-inputs and no-files fatal
errors, then the pipeline.  The emitted lines of the pipeline are its
deterministic terminal output `referenceOutput` (the machine theorems
below prove every complete schedule produces exactly this), after which
`main` returns 0 — the thread count affects no observable. -/
def mainRun (fsys : String → FsEntry) (env : Env) (args : List String) : RunResult :=
  if args.isEmpty then
    { exitCode := 1
      stdout := ["USAGE: md5hash <directory/file> [more directories/files] [--threads N]"]
      stderr := [] }
  else
    match parseArgs args with
    | Except.error e => { exitCode := 1, stdout := [], stderr := [e] }
    | Except.ok tin =>
      if tin.2.isEmpty then
        { exitCode := 1, stdout := [], stderr := ["Error: no input paths provided"] }
      else
        let collected := collectAll fsys tin.2
        if collected.1.isEmpty then
          { exitCode := 1, stdout := [], stderr := collected.2 ++ ["No files found."] }
        else
          { exitCode := 0
            stdout := referenceOutput env (sortPaths collected.1)
            stderr := collected.2 }

/-- Concrete environment for the machine witnesses: every file opens,
is empty, and reads to EOF; the digest primitive returns the empty list. -/
def env1 : Env := { fileOf := fun _ => { openOk := true, content := [], readErrAt := none }, md5fn := fun _ => [] }

/-- Witness file list. -/
def files1 : List String := sortPaths ["a"]

/-- Witness trace, state 0: the initial state for one file `a`. -/
def st0 : MState := initState files1

/-- Witness trace, state 1: after a worker dequeued task 0. -/
def st1 : MState := { st0 with queue := [], inflight := (⟨0, "a"⟩ : Task) :: st0.inflight }

/-- Witness trace, state 2: after the worker published result 0. -/
def st2 : MState :=
  { st1 with
    inflight := st1.inflight.erase (⟨0, "a"⟩ : Task)
    results := Function.update st1.results (Task.index ⟨0, "a"⟩)
      (some (runTask env1 (Task.path ⟨0, "a"⟩))) }

/-- Witness trace, final state: after the collector emitted line 0. -/
def stF : MState :=
  { st2 with
    output := st2.output ++ [renderLine (files1.getD st2.next "") (runTask env1 "a")]
    emitted := st2.emitted ++ [st2.next]
    next := st2.next + 1 }

/-- Counterexample stream for C3: the file holds three bytes but a hard
read error hits after one byte was delivered. -/
def fmC3 : FileModel := { openOk := true, content := [1, 2, 3], readErrAt := some 1 }

/-- Concrete digest primitive for the C3 counterexample. -/
def md5C3 : List Nat → List Nat := fun bs => bs ++ List.replicate (16 - bs.length) 0

/-- Counterexample filesystem for C4: one directory whose single entry
hit a traversal error. -/
def fsC4 : String → FsEntry :=
  fun p => if p = "d" then FsEntry.directory [{ path := "d/f", incErr := true, isReg := true }]
    else FsEntry.missing

/-- Witness filesystem for the amended C4: everything is missing. -/
def fsMissing : String → FsEntry := fun _ => FsEntry.missing

/-- Counterexample filesystem for C8: a single regular file `f`. -/
def fsC8 : String → FsEntry := fun p => if p = "f" then FsEntry.regular else FsEntry.missing

/-- Environment for the C8 counterexample: `f` opens, is empty, reads to
EOF, and the digest primitive returns the all-zero digest. -/
def envC8 : Env :=
  { fileOf := fun _ => { openOk := true, content := [], readErrAt := none }
    md5fn := fun _ => List.replicate 16 0 }

/-- Witness stream for C9: an empty readable file. -/
def fmW : FileModel := { openOk := true, content := [], readErrAt := none }

/-- Witness digest primitive for C9: sixteen bytes 0xAB. -/
def md5W : List Nat → List Nat := fun _ => List.replicate 16 171

theorem countOcc_nil (i : Nat) : countOcc i [] = 0 := rfl

theorem countOcc_cons (i j : Nat) (l : List Nat) :
    countOcc i (j :: l) = (if j = i then 1 else 0) + countOcc i l := by
  by_cases h : j = i
  · simp [countOcc, List.filter_cons, h]
    omega
  · simp [countOcc, List.filter_cons, h]

theorem countOcc_append (i : Nat) (l l2 : List Nat) :
    countOcc i (l ++ l2) = countOcc i l + countOcc i l2 := by
  simp [countOcc, List.filter_append]

theorem countOcc_perm {l l2 : List Nat} (h : l.Perm l2) (i : Nat) :
    countOcc i l = countOcc i l2 :=
  (h.filter _).length_eq

theorem countOcc_pos_of_mem {i : Nat} {l : List Nat} (h : i ∈ l) : 0 < countOcc i l :=
  List.length_pos.mpr (List.ne_nil_of_mem (List.mem_filter.mpr ⟨h, by simp⟩))

theorem countOcc_range (i n : Nat) :
    countOcc i (List.range n) = if i < n then 1 else 0 := by
  induction n with
  | zero => simp [countOcc]
  | succ n ih =>
    rw [List.range_succ, countOcc_append, ih, countOcc_cons, countOcc_nil]
    split_ifs <;> omega

set_option maxRecDepth 4000 in
theorem hexByteChars_eq : ∀ b < 256,
    hexByteChars b = [hexDigit (b / 16), hexDigit (b % 16)] := by decide

theorem hexDigit_range : ∀ n < 16,
    ('0' ≤ hexDigit n ∧ hexDigit n ≤ '9') ∨ ('A' ≤ hexDigit n ∧ hexDigit n ≤ 'F') := by
  decide

theorem md5HexRender_data (ds : List Nat) (h : ∀ b ∈ ds, b < 256) :
    (md5HexRender ds).data =
      (ds.map (fun b => [hexDigit (b / 16), hexDigit (b % 16)])).flatten := by
  show (ds.map hexByteChars).flatten = _
  congr 1
  exact List.map_congr_left (fun b hb => hexByteChars_eq b (h b hb))

theorem md5HexRender_length : ∀ ds : List Nat, (∀ b ∈ ds, b < 256) →
    (md5HexRender ds).length = 2 * ds.length := by
  intro ds
  induction ds with
  | nil => intro _; rfl
  | cons b bs ih =>
    intro h
    show ((b :: bs).map hexByteChars).flatten.length = _
    have hb2 : (hexByteChars b).length = 2 := by
      rw [hexByteChars_eq b (h b (List.mem_cons_self b bs))]; rfl
    have ihl : ((bs.map hexByteChars).flatten).length = 2 * bs.length :=
      ih (fun x hx => h x (List.mem_cons_of_mem _ hx))
    simp only [List.map_cons, List.flatten_cons, List.length_append, hb2, ihl,
      List.length_cons]
    omega

theorem md5HexRender_chars (ds : List Nat) (h : ∀ b ∈ ds, b < 256) :
    ∀ c ∈ (md5HexRender ds).data,
      ('0' ≤ c ∧ c ≤ '9') ∨ ('A' ≤ c ∧ c ≤ 'F') := by
  intro c hc
  have hc2 : c ∈ (ds.map hexByteChars).flatten := hc
  rcases List.mem_flatten.mp hc2 with ⟨l, hl, hcl⟩
  rcases List.mem_map.mp hl with ⟨b, hb, rfl⟩
  rw [hexByteChars_eq b (h b hb)] at hcl
  have hb2 : b < 256 := h b hb
  have hdiv : b / 16 < 16 := by omega
  have hmod : b % 16 < 16 := by omega
  simp only [List.mem_cons, List.not_mem_nil, or_false] at hcl
  rcases hcl with rfl | rfl
  · exact hexDigit_range _ hdiv
  · exact hexDigit_range _ hmod

/-- C9: every digest emitted by a successful `md5_file_hex` call is the
uppercase hexadecimal rendering of the 16-byte digest — 32 characters,
each one an uppercase hex digit, two zero-padded digits per byte. -/
theorem digest_hex_format (fm : FileModel) (md5fn : List Nat → List Nat) (h : String)
    (hok : md5_file_hex fm md5fn = Except.ok h)
    (hlen : (md5fn (deliveredBytes fm)).length = 16)
    (hbytes : ∀ b ∈ md5fn (deliveredBytes fm), b < 256) :
    h.length = 32 ∧
    (∀ c ∈ h.data, ('0' ≤ c ∧ c ≤ '9') ∨ ('A' ≤ c ∧ c ≤ 'F')) ∧
    h.data = ((md5fn (deliveredBytes fm)).map
      (fun b => [hexDigit (b / 16), hexDigit (b % 16)])).flatten := by
  have heq : h = md5HexRender (md5fn (deliveredBytes fm)) := by
    unfold md5_file_hex at hok
    split at hok
    · injection hok with h2; exact h2.symm
    · exact Except.noConfusion hok
  subst heq
  refine ⟨?_, md5HexRender_chars _ hbytes, md5HexRender_data _ hbytes⟩
  rw [md5HexRender_length _ hbytes, hlen]

/-- C9 witness: an empty readable file whose digest primitive returns
sixteen bytes 0xAB yields the 32-character uppercase string. -/
theorem digest_hex_format_witness :
    md5_file_hex fmW md5W = Except.ok "ABABABABABABABABABABABABABABABAB" ∧
    (md5W (deliveredBytes fmW)).length = 16 ∧
    ("ABABABABABABABABABABABABABABABAB" : String).length = 32 :=
  ⟨rfl, rfl, (digest_hex_format fmW md5W "ABABABABABABABABABABABABABABABAB"
    rfl rfl (by decide)).1⟩

/-- C3 counterexample: `fmC3` suffers a hard read failure after one of
its three bytes was delivered, yet `md5_file_hex` returns a success
outcome whose digest was computed from the one-byte prefix only — the
claim that a streaming read failure yields a Failure outcome (and that a
partial digest is never exposed) is false on the code. -/
theorem md5_partial_digest_exposed :
    fmC3.readErrAt = some 1 ∧
    deliveredBytes fmC3 ≠ fmC3.content ∧
    md5_file_hex fmC3 md5C3 = Except.ok (md5HexRender (md5C3 (deliveredBytes fmC3))) :=
  ⟨rfl, by decide, rfl⟩

/-- C3 amended: only a failure of the open produces a Failure outcome;
whenever the open succeeds `md5_file_hex` returns a success digest
computed over exactly the bytes delivered before the stream stopped
(the whole content at EOF, a strict prefix after a mid-stream error). -/
theorem md5_open_failure_only (fm : FileModel) (md5fn : List Nat → List Nat) :
    (fm.openOk = false → md5_file_hex fm md5fn = Except.error "cannot open file") ∧
    (fm.openOk = true →
      md5_file_hex fm md5fn = Except.ok (md5HexRender (md5fn (deliveredBytes fm)))) := by
  constructor <;> intro h <;> simp [md5_file_hex, h]

/-- C3 amended witness: a file whose open fails yields the Failure
outcome. -/
theorem md5_open_failure_only_witness :
    FileModel.openOk { openOk := false, content := [], readErrAt := none } = false ∧
    md5_file_hex { openOk := false, content := [], readErrAt := none } md5C3 =
      Except.error "cannot open file" :=
  ⟨rfl, (md5_open_failure_only { openOk := false, content := [], readErrAt := none }
    md5C3).1 rfl⟩

/-- C4 counterexample: the input directory `d` contains the entry `d/f`
whose iterator increment errored; `collect_files_from_arg` drops it and
prints no warning at all — the input path `d` contributes neither a line
nor a warning, refuting the claim that traversal errors are logged. -/
theorem traversal_error_silently_skipped :
    fsC4 "d" = FsEntry.directory [{ path := "d/f", incErr := true, isReg := true }] ∧
    collect_files_from_arg fsC4 "d" = ([], []) :=
  ⟨rfl, rfl⟩

/-- C4 amended: a missing top-level path and a non-regular non-directory
top-level path each get an explicit warning, and a regular file
contributes itself; but for a directory the traversal keeps exactly the
entries whose increment did not error and that are regular files, and it
never emits a warning — errors inside the traversal are silently
skipped. -/
theorem collect_warning_characterization (fsys : String → FsEntry) (arg : String) :
    (fsys arg = FsEntry.missing →
      collect_files_from_arg fsys arg = ([], ["Warning: path not found: " ++ arg])) ∧
    (fsys arg = FsEntry.regular → collect_files_from_arg fsys arg = ([arg], [])) ∧
    (fsys arg = FsEntry.other →
      collect_files_from_arg fsys arg =
        ([], ["Warning: skipping non-regular path: " ++ arg])) ∧
    (∀ entries, fsys arg = FsEntry.directory entries →
      collect_files_from_arg fsys arg =
        ((entries.filter (fun e => !e.incErr && e.isReg)).map DirEntryRec.path, [])) := by
  refine ⟨fun h => ?_, fun h => ?_, fun h => ?_, fun entries h => ?_⟩ <;>
    simp [collect_files_from_arg, h]

/-- C4 amended witness: a missing path produces its warning. -/
theorem collect_warning_characterization_witness :
    fsMissing "x" = FsEntry.missing ∧
    collect_files_from_arg fsMissing "x" = ([], ["Warning: path not found: " ++ "x"]) :=
  ⟨rfl, (collect_warning_characterization fsMissing "x").1 rfl⟩

theorem parseLoop_no_threads : ∀ (args : List String) (t : Nat) (acc : List String),
    "--threads" ∉ args → parseLoop t acc args = Except.ok (t, acc ++ args) := by
  intro args
  induction args with
  | nil => intro t acc _; simp [parseLoop]
  | cons a rest ih =>
    intro t acc h
    have ha : ¬ a = "--threads" := fun e => h (e ▸ List.mem_cons_self a rest)
    have hr : "--threads" ∉ rest := fun hm => h (List.mem_cons_of_mem _ hm)
    cases rest with
    | nil => simp only [parseLoop, if_neg ha]
    | cons v restTl =>
      simp only [parseLoop, if_neg ha]
      rw [ih t (acc ++ [a]) hr]
      simp

theorem parseLoop_ge_aux : ∀ (n : Nat) (args : List String), args.length ≤ n →
    ∀ (t : Nat) (acc : List String) (res : Nat × List String),
    8 ≤ t → parseLoop t acc args = Except.ok res → 8 ≤ res.1 := by
  intro n
  induction n with
  | zero =>
    intro args hlen t acc res ht h
    have hargs : args = [] := List.eq_nil_of_length_eq_zero (Nat.le_zero.mp hlen)
    subst hargs
    simp only [parseLoop] at h
    cases h
    exact ht
  | succ n ih =>
    intro args hlen t acc res ht h
    cases args with
    | nil =>
      simp only [parseLoop] at h
      cases h
      exact ht
    | cons a rest =>
      cases rest with
      | nil =>
        simp only [parseLoop] at h
        by_cases ha : a = "--threads"
        · rw [if_pos ha] at h
          exact Except.noConfusion h
        · rw [if_neg ha] at h
          cases h
          exact ht
      | cons v restTl =>
        simp only [parseLoop] at h
        by_cases ha : a = "--threads"
        · rw [if_pos ha] at h
          cases hv : stoul v with
          | ok m =>
            simp only [hv] at h
            have hl : restTl.length ≤ n := by
              simp only [List.length_cons] at hlen
              omega
            exact ih restTl hl (max 8 m) acc res (le_max_left 8 m) h
          | error e =>
            simp only [hv] at h
            exact Except.noConfusion h
        · rw [if_neg ha] at h
          have hl : (v :: restTl).length ≤ n := by
            simp only [List.length_cons] at hlen ⊢
            omega
          exact ih (v :: restTl) hl t (acc ++ [a]) res ht h

theorem parseLoop_ge (t : Nat) (acc args : List String) (res : Nat × List String)
    (ht : 8 ≤ t) (h : parseLoop t acc args = Except.ok res) : 8 ≤ res.1 :=
  parseLoop_ge_aux args.length args le_rfl t acc res ht h

/-- C10: when `--threads` does not occur among the arguments, parsing
leaves the default of 8 untouched, so the pool start loop spawns exactly
8 worker threads, and every token is taken as an input path. -/
theorem default_threads_eight (args : List String) (h : "--threads" ∉ args) :
    parseArgs args = Except.ok (8, args) := by
  have h2 := parseLoop_no_threads args 8 [] h
  simpa [parseArgs] using h2

/-- C10 witness: two plain path arguments parse with thread count 8. -/
theorem default_threads_eight_witness :
    "--threads" ∉ (["a", "b"] : List String) ∧
    parseArgs ["a", "b"] = Except.ok (8, ["a", "b"]) :=
  ⟨by decide, default_threads_eight ["a", "b"] (by decide)⟩

/-- C8 counterexample: `4abc` is not a number, yet `std::stoul` parses
its leading digit without throwing, so the run is not rejected: with a
single regular file `f` it reaches emission, prints a digest line for
`f`, and exits 0 — refuting the claim that every non-numeric
`--threads` value is a fatal error with no output. -/
theorem nonnumeric_threads_accepted :
    stoul "4abc" = Except.ok 4 ∧
    mainRun fsC8 envC8 ["--threads", "4abc", "f"] =
      { exitCode := 0
        stdout := ["f\t" ++ "00000000000000000000000000000000"]
        stderr := [] } :=
  ⟨rfl, by decide⟩

theorem parseArgs_threads_err (v : String) (rest : List String) (e : String)
    (hv : stoul v = Except.error e) :
    parseArgs ("--threads" :: v :: rest) = Except.error "Error: invalid --threads value" := by
  simp only [parseArgs, parseLoop, hv, if_true, eq_self_iff_true]

/-- C8 amended: a `--threads` value on which `std::stoul` throws (no
leading digit run after optional whitespace and sign, or a magnitude
above `ULONG_MAX`) is a fatal configuration error: exit code 1, the
message on the error stream, and no stdout line — before any hashing.
Values with a numeric leading portion are accepted with the trailing
characters ignored. -/
theorem stoul_failure_fatal (fsys : String → FsEntry) (env : Env) (v : String)
    (rest : List String) (e : String) (hv : stoul v = Except.error e) :
    mainRun fsys env ("--threads" :: v :: rest) =
      { exitCode := 1, stdout := [], stderr := ["Error: invalid --threads value"] } := by
  have hp := parseArgs_threads_err v rest e hv
  simp [mainRun, hp]

/-- C8 amended witness: the value `abc` has no digits, so the run is
rejected with exit code 1 and no output. -/
theorem stoul_failure_fatal_witness :
    stoul "abc" = Except.error "invalid_argument" ∧
    mainRun fsMissing envC8 ["--threads", "abc"] =
      { exitCode := 1, stdout := [], stderr := ["Error: invalid --threads value"] } :=
  ⟨rfl, stoul_failure_fatal fsMissing envC8 "abc" [] "invalid_argument" rfl⟩

theorem inv_init (env : Env) (files : List String) : Inv env files (initState files) := by
  constructor
  · intro t ht
    simp only [initState, mkTasks, List.append_nil, List.mem_map, List.mem_range] at ht
    obtain ⟨i, hi, rfl⟩ := ht
    exact ⟨hi, rfl⟩
  · intro i hi
    have hq : queueIdx (initState files) = List.range files.length := by
      show (mkTasks files).map Task.index = _
      rw [mkTasks, List.map_map]
      exact List.map_id _
    rw [hq, countOcc_range]
    simp [inflightIdx, initState, countOcc, fillCount, hi]
  · intro i r h
    simp [initState] at h
  · exact Nat.zero_le _
  · intro i h
    exact absurd h (Nat.not_lt_zero _)
  · simp [initState]
  · simp [initState]

theorem inv_step (env : Env) (files : List String) (s s4 : MState)
    (hinv : Inv env files s) (hstep : MStep env files s s4) : Inv env files s4 := by
  cases hstep with
  | dequeue t rest hq =>
    refine ⟨?_, ?_, hinv.slot_content, hinv.next_le, hinv.filled_below_next,
      hinv.output_eq, hinv.emitted_eq⟩
    · intro u hu
      apply hinv.task_mem
      rw [hq]
      simp only [List.mem_append, List.mem_cons] at hu ⊢
      tauto
    · intro i hi
      have h0 := hinv.partition i hi
      have hqs : countOcc i (queueIdx s) =
          (if t.index = i then 1 else 0) + countOcc i (rest.map Task.index) := by
        rw [queueIdx, hq, List.map_cons]
        exact countOcc_cons i t.index _
      have hins : countOcc i ((t :: s.inflight).map Task.index) =
          (if t.index = i then 1 else 0) + countOcc i (inflightIdx s) := by
        rw [List.map_cons]
        exact countOcc_cons i t.index _
      rw [hqs] at h0
      show countOcc i (rest.map Task.index) +
        countOcc i ((t :: s.inflight).map Task.index) + fillCount s i = 1
      rw [hins]
      omega
  | publish t ht =>
    obtain ⟨hidx, hpath⟩ := hinv.task_mem t (List.mem_append_right _ ht)
    have hic : 0 < countOcc t.index (inflightIdx s) :=
      countOcc_pos_of_mem (List.mem_map_of_mem Task.index ht)
    have hpart := hinv.partition t.index hidx
    have hnone : s.results t.index = none := by
      cases hres : s.results t.index with
      | none => rfl
      | some r0 =>
        have hfc : fillCount s t.index = 1 := by simp [fillCount, hres]
        omega
    have hcnt : ∀ i, countOcc i (inflightIdx s) =
        (if t.index = i then 1 else 0) + countOcc i ((s.inflight.erase t).map Task.index) := by
      intro i
      have h2 : s.inflight.Perm (t :: s.inflight.erase t) := List.perm_cons_erase ht
      have h3 : (inflightIdx s).Perm (t.index :: (s.inflight.erase t).map Task.index) := by
        simpa [inflightIdx] using h2.map Task.index
      rw [countOcc_perm h3 i, countOcc_cons]
    refine ⟨?_, ?_, ?_, hinv.next_le, ?_, hinv.output_eq, hinv.emitted_eq⟩
    · intro u hu
      apply hinv.task_mem
      simp only [List.mem_append] at hu ⊢
      rcases hu with hu | hu
      · exact Or.inl hu
      · exact Or.inr (List.mem_of_mem_erase hu)
    · intro i hi
      have h0 := hinv.partition i hi
      rw [hcnt i] at h0
      show countOcc i (queueIdx s) +
        countOcc i ((s.inflight.erase t).map Task.index) +
        (if (Function.update s.results t.index (some (runTask env t.path)) i).isSome
          then 1 else 0) = 1
      by_cases hit : i = t.index
      · subst hit
        rw [Function.update_same]
        have hfc : fillCount s t.index = 0 := by simp [fillCount, hnone]
        simp only [eq_self_iff_true, if_true] at h0
        simp only [Option.isSome_some, if_true]
        omega
      · rw [Function.update_noteq hit]
        have hne2 : ¬ (t.index = i) := fun e => hit e.symm
        simp only [if_neg hne2] at h0
        show countOcc i (queueIdx s) +
          countOcc i ((s.inflight.erase t).map Task.index) + fillCount s i = 1
        omega
    · intro i r h
      have h2 : Function.update s.results t.index (some (runTask env t.path)) i = some r := h
      by_cases hit : i = t.index
      · subst hit
        rw [Function.update_same] at h2
        injection h2 with h3
        refine ⟨hidx, ?_⟩
        rw [← h3, hpath]
      · rw [Function.update_noteq hit] at h2
        exact hinv.slot_content i r h2
    · intro i hi
      show (Function.update s.results t.index (some (runTask env t.path)) i).isSome
      by_cases hit : i = t.index
      · subst hit
        rw [Function.update_same]
        rfl
      · rw [Function.update_noteq hit]
        exact hinv.filled_below_next i hi
  | emit r hlt hres =>
    refine ⟨hinv.task_mem, hinv.partition, hinv.slot_content, hlt, ?_, ?_, ?_⟩
    · intro i hi
      rcases Nat.lt_succ_iff_lt_or_eq.mp hi with h2 | h2
      · exact hinv.filled_below_next i h2
      · show (s.results i).isSome
        rw [h2, hres]
        rfl
    · show s.output ++ [renderLine (files.getD s.next "") r] =
        (referenceOutput env files).take (s.next + 1)
      rw [hinv.output_eq, List.take_succ]
      congr 1
      have hlen2 : s.next < (referenceOutput env files).length := by
        simpa [referenceOutput] using hlt
      rw [List.getElem?_eq_getElem hlen2]
      have hr2 := (hinv.slot_content s.next r hres).2
      rw [hr2, List.getD_eq_getElem files "" hlt]
      simp [referenceOutput]
    · show s.emitted ++ [s.next] = List.range (s.next + 1)
      rw [hinv.emitted_eq, List.range_succ]

theorem inv_reachable (env : Env) (files : List String) (s : MState)
    (h : Reaches env files (initState files) s) : Inv env files s := by
  induction h with
  | refl => exact inv_init env files
  | tail s2 s3 hr hstep ih => exact inv_step env files s2 s3 ih hstep

theorem terminal_output (env : Env) (files : List String) (s : MState)
    (h : Reaches env files (initState files) s) (ht : s.next = files.length) :
    s.output = referenceOutput env files := by
  have hi := inv_reachable env files s h
  rw [hi.output_eq, ht]
  have hl : (referenceOutput env files).length = files.length := by simp [referenceOutput]
  rw [← hl, List.take_length]

theorem trace01 : Reaches env1 files1 (initState files1) st1 :=
  Reaches.tail st0 st1 Reaches.refl (MStep.dequeue st0 ⟨0, "a"⟩ [] rfl)

theorem trace02 : Reaches env1 files1 (initState files1) st2 :=
  Reaches.tail st1 st2 trace01 (MStep.publish st1 ⟨0, "a"⟩ (by decide))

theorem trace0F : Reaches env1 files1 (initState files1) stF :=
  Reaches.tail st2 stF trace02 (MStep.emit st2 (runTask env1 "a") (by decide) rfl)

/-- C1: in every reachable state the collector has emitted exactly the
indices `0, 1, …, next-1` in that order — index `i` is never emitted
before `i-1` — and whenever the cursor slot is filled the emission step
is enabled at once, with no condition on any later slot. -/
theorem collector_emission_order (env : Env) (files : List String) (s : MState)
    (h : Reaches env files (initState files) s) :
    s.emitted = List.range s.next ∧
    (∀ r : Result, s.next < files.length → s.results s.next = some r →
      MStep env files s
        { s with
          output := s.output ++ [renderLine (files.getD s.next "") r]
          emitted := s.emitted ++ [s.next]
          next := s.next + 1 }) :=
  ⟨(inv_reachable env files s h).emitted_eq,
    fun r hlt hres => MStep.emit s r hlt hres⟩

/-- C1 witness: after dequeuing and publishing the only task, nothing is
emitted yet (`emitted = range 0`) and the emit step to `stF` is enabled. -/
theorem collector_emission_order_witness :
    Reaches env1 files1 (initState files1) st2 ∧
    st2.emitted = List.range st2.next ∧
    MStep env1 files1 st2 stF :=
  ⟨trace02, (collector_emission_order env1 files1 st2 trace02).1,
    (collector_emission_order env1 files1 st2 trace02).2 (runTask env1 "a") (by decide) rfl⟩

/-- C2: any two complete runs over the same sorted input set produce the
same output; that output is one line per discovered file, in sorted-path
order. -/
theorem output_deterministic (env : Env) (raw : List String) (s1 s2 : MState)
    (h1 : Reaches env (sortPaths raw) (initState (sortPaths raw)) s1)
    (h2 : Reaches env (sortPaths raw) (initState (sortPaths raw)) s2)
    (t1 : s1.next = (sortPaths raw).length)
    (t2 : s2.next = (sortPaths raw).length) :
    s1.output = s2.output ∧
    s1.output = referenceOutput env (sortPaths raw) ∧
    List.Sorted pathLe (sortPaths raw) ∧
    s1.output.length = raw.length := by
  have e1 : s1.output = referenceOutput env (sortPaths raw) :=
    terminal_output env (sortPaths raw) s1 h1 t1
  have e2 : s2.output = referenceOutput env (sortPaths raw) :=
    terminal_output env (sortPaths raw) s2 h2 t2
  refine ⟨e1.trans e2.symm, e1, List.sorted_insertionSort pathLe raw, ?_⟩
  rw [e1]
  have hl : (referenceOutput env (sortPaths raw)).length = (sortPaths raw).length := by
    simp [referenceOutput]
  rw [hl]
  exact (List.perm_insertionSort pathLe raw).length_eq

/-- C2 witness: the one-file trace terminates with exactly the reference
output. -/
theorem output_deterministic_witness :
    Reaches env1 files1 (initState files1) stF ∧
    stF.next = files1.length ∧
    stF.output = referenceOutput env1 files1 :=
  ⟨trace0F, rfl, (output_deterministic env1 ["a"] stF stF trace0F trace0F rfl rfl).2.1⟩

/-- C5: in every reachable state each task index lives in exactly one
place (queue, in flight, or written to its result slot — so a slot is
written at most once and no task is lost or duplicated); no step ever
overwrites a written slot; and when the collector finishes, the queue
and the in-flight set are empty and the number of written slots equals
the number of tasks enqueued. -/
theorem task_accounting (env : Env) (files : List String) (s : MState)
    (h : Reaches env files (initState files) s) :
    (∀ i < files.length,
      countOcc i (queueIdx s) + countOcc i (inflightIdx s) + fillCount s i = 1) ∧
    (∀ s2 i, MStep env files s s2 → (s.results i).isSome → s2.results i = s.results i) ∧
    (s.next = files.length →
      s.queue = [] ∧ s.inflight = [] ∧
      ((List.range files.length).filter (fun i => (s.results i).isSome)).length =
        files.length) := by
  have hi := inv_reachable env files s h
  refine ⟨hi.partition, ?_, ?_⟩
  · intro s2 i hstep hsome
    cases hstep with
    | dequeue t rest hq => rfl
    | publish t ht =>
      have hmem := hi.task_mem t (List.mem_append_right _ ht)
      by_cases hit : i = t.index
      · subst hit
        exfalso
        have hic : 0 < countOcc t.index (inflightIdx s) :=
          countOcc_pos_of_mem (List.mem_map_of_mem Task.index ht)
        have hfc : fillCount s t.index = 1 := by simp [fillCount, hsome]
        have hp := hi.partition t.index hmem.1
        omega
      · exact Function.update_noteq hit _ _
    | emit r hlt hres => rfl
  · intro ht
    have hfill : ∀ i < files.length, (s.results i).isSome := by
      intro i hi2
      exact hi.filled_below_next i (by omega)
    have hq : s.queue = [] := by
      cases hq2 : s.queue with
      | nil => rfl
      | cons t rest =>
        have hm := hi.task_mem t (List.mem_append_left _ (by rw [hq2]; exact List.mem_cons_self t rest))
        have hcq : 0 < countOcc t.index (queueIdx s) :=
          countOcc_pos_of_mem (by rw [queueIdx, hq2]; exact List.mem_cons_self _ _)
        have hp := hi.partition t.index hm.1
        have hfc : fillCount s t.index = 1 := by simp [fillCount, hfill t.index hm.1]
        omega
    have hinf : s.inflight = [] := by
      cases hq2 : s.inflight with
      | nil => rfl
      | cons t rest =>
        have hm := hi.task_mem t (List.mem_append_right _ (by rw [hq2]; exact List.mem_cons_self t rest))
        have hci : 0 < countOcc t.index (inflightIdx s) :=
          countOcc_pos_of_mem (by rw [inflightIdx, hq2]; exact List.mem_cons_self _ _)
        have hp := hi.partition t.index hm.1
        have hfc : fillCount s t.index = 1 := by simp [fillCount, hfill t.index hm.1]
        omega
    refine ⟨hq, hinf, ?_⟩
    rw [List.filter_eq_self.mpr]
    · exact List.length_range files.length
    · intro i hi2
      rw [List.mem_range] at hi2
      exact hfill i hi2

/-- C5 witness: with one task dequeued and not yet published, index 0 is
counted exactly once across the three places. -/
theorem task_accounting_witness :
    Reaches env1 files1 (initState files1) st1 ∧
    countOcc 0 (queueIdx st1) + countOcc 0 (inflightIdx st1) + fillCount st1 0 = 1 :=
  ⟨trace01, (task_accounting env1 files1 st1 trace01).1 0 (by decide)⟩

/-- C7: the effective thread count after `--threads v` parses as `n` is
`max 8 n` — at least 8, and exactly 8 for any request at or below the
floor; every successful parse yields a thread count of at least 8; and
the terminal output of the pipeline is a function of the file list and
the hash environment alone, so neither the worker count nor the schedule
affects it. -/
theorem threads_clamped_to_floor (v : String) (n : Nat) (rest : List String)
    (hv : stoul v = Except.ok n) (hrest : "--threads" ∉ rest) :
    parseArgs ("--threads" :: v :: rest) = Except.ok (max 8 n, rest) ∧
    8 ≤ max 8 n ∧
    (n ≤ 8 → max 8 n = 8) ∧
    (∀ args t inputs, parseArgs args = Except.ok (t, inputs) → 8 ≤ t) ∧
    (∀ env files s, Reaches env files (initState files) s → s.next = files.length →
      s.output = referenceOutput env files) := by
  refine ⟨?_, le_max_left 8 n, fun hn => max_eq_left hn, ?_, ?_⟩
  · show parseLoop 8 [] ("--threads" :: v :: rest) = _
    simp only [parseLoop, hv, if_true, eq_self_iff_true]
    rw [parseLoop_no_threads rest (max 8 n) [] hrest]
    simp
  · intro args t inputs hp
    exact parseLoop_ge 8 [] args (t, inputs) le_rfl hp
  · intro env files s hr ht
    exact terminal_output env files s hr ht

/-- C7 witness: requesting 1 worker is clamped to the floor of 8. -/
theorem threads_clamped_to_floor_witness :
    stoul "1" = Except.ok 1 ∧
    "--threads" ∉ (["f"] : List String) ∧
    parseArgs ["--threads", "1", "f"] = Except.ok (8, ["f"]) :=
  ⟨rfl, by decide,
    (threads_clamped_to_floor "1" 1 ["f"] rfl (by decide)).1⟩

/-- C6: the exit code is always 0 or 1; it is 0 exactly when the run
reaches the emission phase (non-empty command line, parsable options,
at least one input path, at least one discovered file); and it never
depends on the hash environment — per-file hash failures leave it at 0. -/
theorem exit_code_characterization (fsys : String → FsEntry) (env env2 : Env)
    (args : List String) :
    ((mainRun fsys env args).exitCode = 0 ∨ (mainRun fsys env args).exitCode = 1) ∧
    ((mainRun fsys env args).exitCode = 0 ↔
      args ≠ [] ∧ ∃ t inputs, parseArgs args = Except.ok (t, inputs) ∧ inputs ≠ [] ∧
        (collectAll fsys inputs).1 ≠ []) ∧
    (mainRun fsys env args).exitCode = (mainRun fsys env2 args).exitCode := by
  cases args with
  | nil => simp [mainRun]
  | cons a as =>
    cases hp : parseArgs (a :: as) with
    | error e => simp [mainRun, hp]
    | ok tin =>
      obtain ⟨t, inputs⟩ := tin
      cases inputs with
      | nil => simp [mainRun, hp]
      | cons p ps =>
        cases hc : (collectAll fsys (p :: ps)).1 with
        | nil => simp [mainRun, hp, hc]
        | cons f fs =>
          refine ⟨Or.inl ?_, ?_, ?_⟩
          · simp [mainRun, hp, hc]
          · constructor
            · intro _
              exact ⟨List.cons_ne_nil a as,
                t, p :: ps, rfl, List.cons_ne_nil p ps, by rw [hc]; exact List.cons_ne_nil f fs⟩
            · intro _
              simp [mainRun, hp, hc]
          · simp [mainRun, hp, hc]

end Md5
